import Mathlib

set_option maxRecDepth 40000

/-!
Verification development for the ai-news-daily acquisition and normalization
pipeline (src/ai_news_english.py).  Python strings are modelled as Lean
`String`s (lists of Unicode code points, matching Python's code-point
semantics for `len` and slicing); `str.lower()` is modelled by
`pyLower`, which lower-cases ASCII letters exactly as Python does on
the ASCII keyword data this program manipulates.  Network and DOM effects are
modelled by explicit oracle parameters.
-/

/-! ## Python string primitives -/

/-- Python `needle in hay` (substring test). -/
def pyIn (needle hay : String) : Bool :=
  (List.range (hay.toList.length + 1)).any
    (fun i => needle.toList.isPrefixOf (hay.toList.drop i))

/-- Python `s[:n]` for a nonnegative bound. -/
def pySlice (s : String) (n : Nat) : String := String.mk (s.toList.take n)

/-- Python `s.lower()`: lower-case character by character (`Char.toLower`
lower-cases the ASCII range, which is exactly what this program's keyword
matching relies on). -/
def pyLower (s : String) : String := String.mk (s.toList.map Char.toLower)

/-- Python `l[-n:]` on a list of strings. -/
def pyTakeLast (n : Nat) (l : List String) : List String := l.drop (l.length - n)

/-- Drop leading whitespace characters. -/
def dropWs : List Char → List Char
  | [] => []
  | c :: rest => if c.isWhitespace then dropWs rest else c :: rest

/-- Drop trailing whitespace characters. -/
def dropTrailWs : List Char → List Char
  | [] => []
  | c :: rest =>
    let r := dropTrailWs rest
    if r.isEmpty then (if c.isWhitespace then [] else [c]) else c :: r

/-- Python `s.strip()`: remove leading and trailing whitespace. -/
def pyStrip (s : String) : String := String.mk (dropTrailWs (dropWs s.toList))

/-- Model of `re.sub(r'\s+', ' ', s)`: replace every maximal whitespace run
by a single space.  The Boolean flag records whether we are inside a run. -/
def collapseWsGo : List Char → Bool → List Char
  | [], _ => []
  | c :: rest, inRun =>
    if c.isWhitespace then
      if inRun then collapseWsGo rest true else ' ' :: collapseWsGo rest true
    else c :: collapseWsGo rest false

/-- Python `hay.rfind(needle)`: start index of the last occurrence, `-1` if
absent. -/
def pyRFind (needle hay : String) : Int :=
  match ((List.range (hay.toList.length + 1)).filter
      (fun i => needle.toList.isPrefixOf (hay.toList.drop i))).getLast? with
  | some i => (i : Int)
  | none => -1

def CONTENT_MAX : Nat := 6000
def TRANSLATE_MAX : Nat := 1800
def MAX_RETRIES : Nat := 3

/-- Model of `clean_text(text, max_len)` from the source: collapse whitespace runs to
single spaces and strip the ends; with a (truthy) `max_len`, texts longer
than the cap are cut at `max_len`, preferring the last sentence boundary
when it lies past 70% of the cap.  The source compares `last_period` against
the float `max_len * 0.7`; we model that threshold exactly as the rational
7/10 (the two agree on every comparison this program performs).  Empty input
yields the empty string. -/
def clean_text (text : String) (maxLen : Option Nat) : String :=
  if text = "" then ""
  else
    let t := String.mk (dropTrailWs (dropWs (collapseWsGo text.toList false)))
    match maxLen with
    | none => t
    | some m =>
      if m ≠ 0 ∧ m < t.length then
        let truncated := pySlice t m
        let lastPeriod := max (pyRFind ". " truncated) (pyRFind "。" truncated)
        if (7 : Int) * m < 10 * lastPeriod then pySlice truncated (lastPeriod + 1).toNat
        else truncated
      else t

/-- Model of `clean_content` from the source. -/
def clean_content (text : String) : String := clean_text text (some CONTENT_MAX)

/-! ## Translator (`_call_baidu_api`, `translate_long_text`, `safe_translate`)

The provider call is a network effect: one call either yields a translated
string (`ok`), is detected by `_call_baidu_api` as failed and yields `None`
(`err`), or raises an exception that propagates out of `_call_baidu_api`
(`raise`).  `translate_long_text` turns `err` into a per-chunk fallback to
the source chunk, while `raise` aborts the whole loop; `safe_translate`
catches the abort. -/

inductive ApiOutcome where
  | ok (s : String) : ApiOutcome
  | err : ApiOutcome
  | raise : ApiOutcome

/-- One sentence ends where a whitespace run follows `.`, `!` or `?`. -/
def isSentPunct (c : Char) : Bool := c = '.' || c = '!' || c = '?'

/-- Model of `re.split(r'(?<=[.!?])\s+', s)`: split at every maximal
whitespace run whose preceding character is sentence punctuation.  `cur`
holds the current piece reversed; the flag records that we are consuming
the whitespace run at a split point. -/
def splitGo : List Char → List Char → Bool → List (List Char)
  | [], cur, _ => [cur.reverse]
  | c :: rest, cur, skip =>
    if skip then
      if c.isWhitespace then splitGo rest cur true
      else splitGo rest [c] false
    else
      if c.isWhitespace && (match cur with | p :: _ => isSentPunct p | [] => false) then
        cur.reverse :: splitGo rest [] true
      else splitGo rest (c :: cur) false

def splitSentences (s : String) : List String :=
  (splitGo s.toList [] false).map String.mk

/-- The chunk-building loop of `translate_long_text`: greedily pack
sentences into chunks of at most `TRANSLATE_MAX` characters; a sentence
that does not fit starts a new chunk truncated to `TRANSLATE_MAX`. -/
def chunkLoop : List String → List String → String → List String × String
  | [], chunks, cur => (chunks, cur)
  | sent :: rest, chunks, cur =>
    if cur.length + sent.length + 1 ≤ TRANSLATE_MAX then
      chunkLoop rest chunks (pyStrip (cur ++ " " ++ sent))
    else
      chunkLoop rest (if cur = "" then chunks else chunks ++ [cur]) (pySlice sent TRANSLATE_MAX)

def buildChunks (sents : List String) : List String :=
  let p := chunkLoop sents [] ""
  if p.2 = "" then p.1 else p.1 ++ [p.2]

/-- The chunks `translate_long_text` sends to the provider for `text`. -/
def chunksOf (text : String) : List String :=
  buildChunks (splitSentences (pyStrip text))

/-- The per-chunk result: the translation on success, the source chunk on a
provider failure (`None`). -/
def chunkResult (api : String → ApiOutcome) (c : String) : String :=
  match api c with
  | .ok s => s
  | _ => c

/-- The translation loop over the chunks; a raised exception aborts the
whole call (it propagates out of `translate_long_text`). -/
def translateChunks (api : String → ApiOutcome) : List String → Except Unit (List String)
  | [] => .ok []
  | c :: rest =>
    match api c with
    | .raise => .error ()
    | .ok s => (translateChunks api rest).map (s :: ·)
    | .err => (translateChunks api rest).map (c :: ·)

/-- Model of `translate_long_text` from the source: empty or whitespace-only input
yields `""` at once; otherwise the text is split into sentences, packed
into chunks, translated chunk by chunk and concatenated in order. -/
def translate_long_text (api : String → ApiOutcome) (text : String) : Except Unit String :=
  if pyStrip text = "" then .ok ""
  else (translateChunks api (chunksOf text)).map String.join

/-- The `en` field computed by `safe_translate`: `clean_text(text)` for truthy
input, `""` for `None` or `""`. -/
def safe_translate_en (text : Option String) : String :=
  match text with
  | none => ""
  | some t => if t = "" then "" else clean_text t none

/-- Model of `safe_translate` from the source.  `creds` models whether the Baidu
credentials are configured. -/
def safe_translate (creds : Bool) (api : String → ApiOutcome) (text : Option String) :
    String × String :=
  if safe_translate_en text = "" ∨ (safe_translate_en text).length < 3 then
    (safe_translate_en text,
      if safe_translate_en text = "" then "暂无内容" else safe_translate_en text)
  else if creds = false then (safe_translate_en text, safe_translate_en text)
  else
    match translate_long_text api (safe_translate_en text) with
    | .ok zh =>
      if zh ≠ "" ∧ pyStrip zh ≠ "" then (safe_translate_en text, zh)
      else (safe_translate_en text, safe_translate_en text)
    | .error _ => (safe_translate_en text, safe_translate_en text)

/-! ## Relevance filter (`is_target_company_news`, `is_ai_related`) -/

/-- The `TARGET_COMPANIES` registry from the source (dict order preserved). -/
def TARGET_COMPANIES : List (String × List String) := [
  ("openai",    ["openai", "chatgpt", "gpt-4", "gpt-5", "sora", "o1", "o3", "sam altman"]),
  ("google",    ["google ai", "google deepmind", "deepmind", "gemini", "google cloud ai",
                 "vertex ai", "google bard", "sundar pichai"]),
  ("anthropic", ["anthropic", "claude ", "dario amodei", "amanda askell"]),
  ("microsoft", ["microsoft ai", "copilot", "azure ai", "bing ai"]),
  ("meta",      ["meta ai", "llama", "meta llm"]),
  ("deepseek",  ["deepseek", "deep seek"]),
  ("manus",     ["manus ai", "manus agent", "monica ai"]),
  ("tencent",   ["tencent ai", "tencent", "腾讯", "混元", "hunyuan"]),
  ("bytedance", ["bytedance", "byte dance", "doubao", "字节", "豆包", "coze"]),
  ("alibaba",   ["alibaba ai", "alibaba", "qwen", "tongyi", "通义", "阿里"]),
  ("kimi",      ["kimi", "moonshot ai", "月之暗面"]),
  ("zhipu",     ["zhipu", "chatglm", "glm-", "智谱"]),
  ("minmax",    ["minmax", "min-max", "abab", "minimax"])]

/-- Model of `is_target_company_news(title, summary)`: scans
`(title + " " + summary[:200]).lower()` against each company's keyword set,
returning the first match. -/
def is_target_company_news (title summary : String) : Bool × Option String :=
  let text := pyLower (title ++ " " ++ pySlice summary 200)
  match TARGET_COMPANIES.find? (fun p => p.2.any (fun kw => pyIn kw text)) with
  | some p => (true, some p.1)
  | none => (false, none)

/-- The `HARD_EXCLUDE` denylist from `is_ai_related`. -/
def HARD_EXCLUDE : List String := [
  "cyberwar", "cyber war", "espionage", "surveillance state",
  "disinformation", "propaganda", "influence operation",
  "election interference", "congressional", "senate hearing",
  "geopolitical", "sanctions", "export ban", "trade war",
  "national security", "warfare", "bioweapon", "nuclear weapon",
  "chinese government", "chinese official", "beijing government",
  "cia", "nsa", "fbi", "doj ", "white house",
  "lawmaker", "legislat",
  "election", "congress", "senate", "trump", "biden",
  "immigration", "deportat",
  "cancer", "tumor", "gene therapy", "vaccine", "drug trial",
  "surgery", "clinical trial", "patient", "hospital",
  "obesity", "diabetes", "cardiovascular",
  "earthquake", "hurricane", "flood", "wildfire", "climate change"]

/-- The `CORE_AI_WORDS` list from `is_ai_related`. -/
def CORE_AI_WORDS : List String := [
  "large language model", "llm", "foundation model",
  "generative ai", "ai model", "ai system", "ai tool",
  "machine learning model", "deep learning model",
  "neural network", "transformer model", "diffusion model",
  "ai chip", "nvidia gpu", "ai infrastructure",
  "ai startup", "ai funding", "ai investment",
  "ai agent", "ai assistant", "ai platform"]

/-- The `BROAD_AI_WORDS` list from `is_ai_related`. -/
def BROAD_AI_WORDS : List String := [
  " ai ", "artificial intelligence", "machine learning",
  "neural", "autonomous", "automation",
  "inference", "fine-tun", "embedding", "multimodal",
  "rag ", "hugging face", "raises $", "million round"]

/-- Model of `is_ai_related(title, summary)` from the source: a hard-exclusion
keyword in the lower-cased title rejects outright (before any other
signal); then tracked companies, then core AI terms, then broad AI terms. -/
def is_ai_related (title summary : String) : Bool :=
  let text := pyLower (title ++ " " ++ summary)
  let titleLower := pyLower title
  if HARD_EXCLUDE.any (fun kw => pyIn kw titleLower) then false
  else if (is_target_company_news title summary).1 then true
  else if CORE_AI_WORDS.any (fun kw => pyIn kw text) then true
  else BROAD_AI_WORDS.any (fun kw => pyIn kw text)

/-! ## Chinese-site exclusion -/

def CHINESE_DOMAINS : List String := [
  "sina.com.cn", "sina.cn", "sohu.com", "163.com", "qq.com",
  "weibo.com", "zhihu.com", "36kr.com", "ifeng.com", "xinhua",
  "people.com.cn", "cnbeta", "sspai.com", "jiemian.com",
  "jiqizhixin.com", "leiphone.com", "infoq.cn", "oschina.net",
  "baidu.com", "toutiao.com", "csdn.net", "juejin.cn"]

/-- Model of `is_chinese_url(url)` from the source. -/
def is_chinese_url (url : String) : Bool :=
  CHINESE_DOMAINS.any (fun d => pyIn d url)

/-! ## Selection pipeline of `main` (lines 1437-1545)

An article dict is modelled by its fields used in selection.  `title` and
`content` are the `{"en", "zh"}` pairs produced by `safe_translate`; the
selection pass reads `title["en"]`, `content["en"]`, `content["zh"]`,
`link`, `hot_score` and `company_tag`.  `hot_score` is a Python float with
one decimal digit; we carry it as an exact rational (`round(x + 10, 1)` is
the identity on such values, and no claim depends on score arithmetic). -/

structure Article where
  titleEn : String
  contentEn : String
  contentZh : String
  link : String
  hotScore : Rat
  companyTag : Option String
deriving DecidableEq

/-- The `QUALITY_BLACKLIST` list from `main`. -/
def QUALITY_BLACKLIST : List String := [
  "服务错误", "服务目前不可用", "那是个错误", "错误-27",
  "error_code", "unauthorized", "rate limit",
  "that\x27s an error", "service error -27", "not available at this time",
  "503 service", "access denied", "enable javascript",
  "our systems have detected", "cloudflare",
  "pdf:", "https://arxiv.org/pdf", "https://arxiv.org/abs"]

/-- The dedup key of the strict pass: `title_en.strip().lower()[:60]`. -/
def titleKey (a : Article) : String :=
  pySlice (pyLower (pyStrip a.titleEn)) 60

/-- The key used to seed `used_keys` in the backfill pass, which the source
computes from the raw (unstripped) title: `a["title"].get("en","").lower()[:60]`. -/
def usedKey (a : Article) : String :=
  pySlice (pyLower a.titleEn) 60

/-- The company-tag and hot-score update applied to an accepted article
(`main`, lines 1493-1498): articles matching a tracked company get the
company tag (when none is set — Python truthiness, so an empty tag also
counts as unset) and a `+10` score boost (a falsy stored score falls back
to 85 first). -/
def boostArticle (a : Article) : Article :=
  if (is_target_company_news (pyStrip a.titleEn) (pySlice a.contentEn 200)).1 then
    { a with
      companyTag :=
        if a.companyTag.getD "" = "" then
          (is_target_company_news (pyStrip a.titleEn) (pySlice a.contentEn 200)).2
        else a.companyTag,
      hotScore := (if a.hotScore = 0 then 85 else a.hotScore) + 10 }
  else a

/-- The remainder of a strict-pass iteration once the title, Chinese-link
and dedup checks have passed: the key has just been added to the seen set,
and the AI-relevance, error-text, content-length and title-length checks
decide whether the (boosted) article is accepted. -/
def strictRest (st : List String × List Article) (a : Article) : List String × List Article :=
  if is_ai_related (pyStrip a.titleEn) (pySlice a.contentEn 500) = false then
    (st.1 ++ [titleKey a], st.2)
  else if QUALITY_BLACKLIST.any
      (fun q => pyIn (pyLower q) (pyLower (a.contentZh ++ a.contentEn))) then
    (st.1 ++ [titleKey a], st.2)
  else if (pyStrip a.contentZh).length < 50 then (st.1 ++ [titleKey a], st.2)
  else if (pyStrip a.titleEn).length < 10 then (st.1 ++ [titleKey a], st.2)
  else (st.1 ++ [titleKey a], st.2 ++ [boostArticle a])

/-- One iteration of the strict filtering loop of `main`.  The state is the
pair (seen title keys, accepted articles); the Python `set` of keys is
modelled as an insertion-ordered duplicate-free list. -/
def strictStep (st : List String × List Article) (a : Article) : List String × List Article :=
  if a.titleEn = "" then st
  else if is_chinese_url a.link then st
  else if st.1.contains (titleKey a) then st
  else strictRest st a

/-- The strict filtering pass over the crawled pool, with the history keys
loaded from the persistence store as the initial seen set. -/
def strictPass (pool : List Article) (seen0 : List String) : List String × List Article :=
  List.foldl strictStep (seen0, []) pool

/-- Descending order on `hot_score`, as used by `sorted(..., reverse=True)`. -/
def hotGe (a b : Article) : Prop := b.hotScore ≤ a.hotScore

instance : DecidableRel hotGe := fun a b => inferInstanceAs (Decidable (b.hotScore ≤ a.hotScore))

instance : IsTotal Article hotGe := ⟨fun a b => (le_total b.hotScore a.hotScore)⟩

instance : IsTrans Article hotGe := ⟨fun _ _ _ h1 h2 => le_trans h2 h1⟩

/-- Python's stable descending sort by `hot_score`. -/
def sortDesc (l : List Article) : List Article := List.insertionSort hotGe l

/-- One iteration of the relaxed backfill loop (`main`, lines 1510-1536).
`seen` is the seen-keys set as it stands after the strict pass; the state is
`(used_keys, valid)`.  The `break` at 5 is modelled by making every later
iteration a no-op, which leaves the same final state. -/
def backfillStep (seen : List String) (st : List String × List Article) (a : Article) :
    List String × List Article :=
  if 5 ≤ st.2.length then st
  else if a.titleEn = "" then st
  else if st.1.contains (titleKey a) || seen.contains (titleKey a) then st
  else if is_chinese_url a.link then st
  else if (pyStrip a.titleEn).length < 10 then st
  else if pyStrip (if a.contentEn = "" then a.contentZh else a.contentEn) = "" then st
  else (st.1 ++ [titleKey a], st.2 ++ [a])

/-- The final selection of `main`: strict pass, sort by score, backfill when
fewer than 5 survived, sort again, cut to the top 5. -/
def selectArticles (pool : List Article) (seen0 : List String) : List Article :=
  (if (sortDesc (strictPass pool seen0).2).length < 5 then
    sortDesc (List.foldl (backfillStep (strictPass pool seen0).1)
      ((sortDesc (strictPass pool seen0).2).map usedKey, sortDesc (strictPass pool seen0).2)
      pool).2
  else sortDesc (strictPass pool seen0).2).take 5

/-- The tail of `main` after selection (lines 1547-1555): the Boolean result
of `send_to_feishu(valid)` is discarded, every pushed title key is added to
the seen set, and `save_pushed_titles` persists the set capped to its last
35 entries.  The Python `set` is modelled as an insertion-ordered list. -/
def finishRun (deliverResult : Bool) (seen : List String) (valid : List Article) : List String :=
  let seen2 := valid.foldl
    (fun s a =>
      let key := pySlice (pyLower (pyStrip a.titleEn)) 60
      if key = "" then s else if s.contains key then s else s ++ [key])
    seen
  pyTakeLast 35 seen2

/-! ## Content extractor (`retry`, `fetch_article_content`)

One HTTP fetch either raises (timeout, connection error — all caught by the
`try` that spans the whole body of `fetch_article_content`) or yields a
response, abstracted by its status code, the visible page text
(`soup.get_text()`), and the pre-clean text that the per-domain DOM
extraction rules produce for the page.  Everything the function returns on
the success path goes through `clean_content`. -/

inductive FetchOutcome where
  | raise : FetchOutcome
  | response (status : Nat) (pageText : String) (extracted : String) : FetchOutcome

/-- The `ERROR_PAGE_SIGNS` list from `fetch_article_content`. -/
def ERROR_PAGE_SIGNS : List String := [
  "503", "502", "500", "404",
  "that\x27s an error", "service error", "not available at this time",
  "access denied", "forbidden", "cloudflare", "just a moment",
  "please enable cookies", "enable javascript",
  "our systems have detected unusual traffic"]

/-- Model of `fetch_article_content(url)` as a function of the fetch outcome: any
exception yields `""` (the surrounding `try` catches everything), a non-200
status yields `""`, a recognized error page yields `""`, and otherwise the
extracted text is sanitized by `clean_content`. -/
def fetch_article_content : FetchOutcome → String
  | .raise => ""
  | .response status pageText extracted =>
    if status ≠ 200 then ""
    else if ERROR_PAGE_SIGNS.any
        (fun sign => pyIn sign (pyLower (pySlice pageText 500))) then ""
    else clean_content extracted

/-- The `retry` decorator: up to `MAX_RETRIES` attempts, returning the first
attempt that does not raise (`some`), and `None` when every attempt raised. -/
def retryFrom (f : Nat → Option String) : Nat → Nat → Option String
  | _, 0 => none
  | i, Nat.succ n =>
    match f i with
    | some v => some v
    | none => retryFrom f (i + 1) n

def retry (f : Nat → Option String) : Option String := retryFrom f 0 MAX_RETRIES

/-- Model of `fetch_article_content` wrapped in `@retry`: since the function body
catches every exception itself, an attempt never raises — the attempt's
value is always `some` string. -/
def fetch_article_content_retried (env : Nat → FetchOutcome) : Option String :=
  retry (fun i => some (fetch_article_content (env i)))

/-! ## Concrete inputs used by witnesses and counterexamples -/

/-- A single 1801-character sentence (no sentence-boundary inside). -/
def s1801 : String := String.mk (List.replicate 1801 'a')

/-- A provider oracle whose every call fails without raising. -/
def apiErr : String → ApiOutcome := fun _ => ApiOutcome.err

/-- An on-topic article with ample content and no tracked-entity match. -/
def c10art : Article :=
  { titleEn := "Generative AI platform expands to new markets"
    contentEn := "The generative platform update adds many new features for enterprise users around the globe."
    contentZh := "The platform update brings many new capabilities to enterprise customers worldwide."
    link := "https://example.com/genai-platform"
    hotScore := 88
    companyTag := none }

/-- A pool of five off-topic articles (no AI keyword anywhere), each with
non-empty content, a distinct title and a non-Chinese link. -/
def c2pool : List Article :=
  [{ titleEn := "Quantum hardware weekly report part one"
     contentEn := "Factory output rose across all regions last quarter."
     contentZh := "Factory output rose across all regions last quarter."
     link := "https://example.com/q1", hotScore := 70, companyTag := none },
   { titleEn := "Quantum hardware weekly report part two"
     contentEn := "Factory output rose across all regions last quarter."
     contentZh := "Factory output rose across all regions last quarter."
     link := "https://example.com/q2", hotScore := 71, companyTag := none },
   { titleEn := "Quantum hardware weekly report part three"
     contentEn := "Factory output rose across all regions last quarter."
     contentZh := "Factory output rose across all regions last quarter."
     link := "https://example.com/q3", hotScore := 72, companyTag := none },
   { titleEn := "Quantum hardware weekly report part four"
     contentEn := "Factory output rose across all regions last quarter."
     contentZh := "Factory output rose across all regions last quarter."
     link := "https://example.com/q4", hotScore := 73, companyTag := none },
   { titleEn := "Quantum hardware weekly report part five"
     contentEn := "Factory output rose across all regions last quarter."
     contentZh := "Factory output rose across all regions last quarter."
     link := "https://example.com/q5", hotScore := 74, companyTag := none }]

/-- An on-topic tracked-entity article whose translated body is shorter than
the 50-character quality floor but whose content is non-empty. -/
def c5art : Article :=
  { titleEn := "DeepSeek releases new model today"
    contentEn := "A short note."
    contentZh := "Too short."
    link := "https://example.com/deepseek-note"
    hotScore := 90
    companyTag := none }

/-- An article pushed in a run whose delivery fails. -/
def c4art : Article :=
  { titleEn := "OpenAI ships a new reasoning model"
    contentEn := "The company shipped a new reasoning model for developers and enterprises this week."
    contentZh := "The company shipped a new reasoning model for developers and enterprises this week."
    link := "https://example.com/openai-model"
    hotScore := 92
    companyTag := none }

/-! ## Basic facts about the string primitives -/

theorem toList_mk (l : List Char) : (String.mk l).toList = l := rfl

theorem length_mk (l : List Char) : (String.mk l).length = l.length := rfl

theorem dropWs_length : ∀ l : List Char, (dropWs l).length ≤ l.length := by
  intro l
  induction l with
  | nil => simp [dropWs]
  | cons c rest ih =>
    simp only [dropWs]
    split
    · exact Nat.le_trans ih (Nat.le_succ _)
    · simp

theorem dropTrailWs_length : ∀ l : List Char, (dropTrailWs l).length ≤ l.length := by
  intro l
  induction l with
  | nil => simp [dropTrailWs]
  | cons c rest ih =>
    simp only [dropTrailWs]
    split
    · split <;> simp
    · simpa using ih

theorem pyStrip_length (s : String) : (pyStrip s).length ≤ s.length := by
  unfold pyStrip
  rw [length_mk]
  exact Nat.le_trans (dropTrailWs_length _) (Nat.le_trans (dropWs_length _) (le_refl _))

theorem pySlice_length (s : String) (n : Nat) : (pySlice s n).length ≤ n := by
  unfold pySlice
  rw [length_mk]
  simpa using List.length_take_le n s.toList

/-! ## Chunking invariants of `translate_long_text` -/

theorem chunkLoop_bound :
    ∀ (sents chunks : List String) (cur : String),
      (∀ c ∈ chunks, c.length ≤ TRANSLATE_MAX) → cur.length ≤ TRANSLATE_MAX →
      (∀ c ∈ (chunkLoop sents chunks cur).1, c.length ≤ TRANSLATE_MAX) ∧
        (chunkLoop sents chunks cur).2.length ≤ TRANSLATE_MAX := by
  intro sents
  induction sents with
  | nil => intro chunks cur h1 h2; exact ⟨h1, h2⟩
  | cons sent rest ih =>
    intro chunks cur h1 h2
    simp only [chunkLoop]
    split
    · rename_i hfit
      apply ih
      · exact h1
      · have hs : (pyStrip (cur ++ " " ++ sent)).length ≤ (cur ++ " " ++ sent).length :=
          pyStrip_length _
        have ha : (cur ++ " " ++ sent).length = cur.length + " ".length + sent.length := by
          rw [String.length_append, String.length_append]
        have hone : (" " : String).length = 1 := rfl
        omega
    · apply ih
      · intro c hc
        by_cases hcur : cur = ""
        · rw [if_pos hcur] at hc; exact h1 c hc
        · rw [if_neg hcur] at hc
          rcases List.mem_append.mp hc with h | h
          · exact h1 c h
          · rcases List.mem_singleton.mp h with rfl; exact h2
      · exact pySlice_length sent TRANSLATE_MAX

theorem buildChunks_bound (sents : List String) :
    ∀ c ∈ buildChunks sents, c.length ≤ TRANSLATE_MAX := by
  have h := chunkLoop_bound sents [] "" (by simp) (by decide)
  intro c hc
  unfold buildChunks at hc
  by_cases hp : (chunkLoop sents [] "").2 = ""
  · rw [if_pos hp] at hc; exact h.1 c hc
  · rw [if_neg hp] at hc
    rcases List.mem_append.mp hc with h2 | h2
    · exact h.1 c h2
    · rcases List.mem_singleton.mp h2 with rfl; exact h.2

theorem translateChunks_ok (api : String → ApiOutcome)
    (hnr : ∀ c, api c ≠ ApiOutcome.raise) :
    ∀ l : List String, translateChunks api l = .ok (l.map (chunkResult api)) := by
  intro l
  induction l with
  | nil => rfl
  | cons c rest ih =>
    simp only [translateChunks, List.map]
    cases hapi : api c with
    | raise => exact absurd hapi (hnr c)
    | ok s => rw [ih]; simp [Except.map, chunkResult, hapi]
    | err => rw [ih]; simp [Except.map, chunkResult, hapi]

/-- C3: for every text longer than `TRANSLATE_MAX` (1800), every chunk
`translate_long_text` sends to the provider has length at most
`TRANSLATE_MAX`, and (whenever no provider call raises) the returned string
is exactly the concatenation of the per-chunk results in the order the
chunks occur in the input. -/
theorem translate_long_text_spec (api : String → ApiOutcome) (text : String)
    (_hlen : TRANSLATE_MAX < text.length) :
    (∀ c ∈ chunksOf text, c.length ≤ TRANSLATE_MAX) ∧
      ((∀ c, api c ≠ ApiOutcome.raise) →
        translate_long_text api text =
          .ok (String.join ((chunksOf text).map (chunkResult api)))) := by
  refine ⟨buildChunks_bound _, ?_⟩
  intro hnr
  unfold translate_long_text
  by_cases hs : pyStrip text = ""
  · rw [if_pos hs]
    unfold chunksOf
    rw [hs]
    rfl
  · rw [if_neg hs, translateChunks_ok api hnr]
    rfl

/-! ## Facts about the concrete 1801-character sentence -/

theorem dropWs_replicate_a (n : Nat) :
    dropWs (List.replicate n 'a') = List.replicate n 'a' := by
  cases n with
  | zero => rfl
  | succ m =>
    rw [List.replicate_succ]
    simp only [dropWs]
    rw [if_neg (by decide : ¬ ('a'.isWhitespace = true))]

theorem dropTrailWs_replicate_a (n : Nat) :
    dropTrailWs (List.replicate n 'a') = List.replicate n 'a' := by
  induction n with
  | zero => rfl
  | succ m ih =>
    rw [List.replicate_succ]
    simp only [dropTrailWs]
    rw [ih]
    cases m with
    | zero => simp
    | succ k => rw [List.replicate_succ]; simp

theorem pyStrip_s1801 : pyStrip s1801 = s1801 := by
  unfold pyStrip s1801
  rw [toList_mk, dropWs_replicate_a, dropTrailWs_replicate_a]

theorem splitGo_replicate_a (n : Nat) :
    ∀ cur : List Char,
      splitGo (List.replicate n 'a') cur false = [cur.reverse ++ List.replicate n 'a'] := by
  induction n with
  | zero => intro cur; simp [splitGo]
  | succ m ih =>
    intro cur
    rw [List.replicate_succ]
    simp only [splitGo]
    rw [if_neg (by simp : ¬ (('a'.isWhitespace &&
      (match cur with | p :: _ => isSentPunct p | [] => false)) = true))]
    rw [ih ('a' :: cur)]
    simp [List.replicate_succ]

theorem splitSentences_s1801 : splitSentences s1801 = [s1801] := by
  unfold splitSentences s1801
  rw [toList_mk, splitGo_replicate_a]
  simp

theorem s1801_length : s1801.length = 1801 := by
  unfold s1801
  rw [length_mk, List.length_replicate]

/-- Witness for C3 at a concrete 1801-character text. -/
theorem translate_long_text_spec_witness :
    (∀ c ∈ chunksOf s1801, c.length ≤ TRANSLATE_MAX) ∧
      ((∀ c, apiErr c ≠ ApiOutcome.raise) →
        translate_long_text apiErr s1801 =
          .ok (String.join ((chunksOf s1801).map (chunkResult apiErr)))) :=
  translate_long_text_spec apiErr s1801 (by rw [s1801_length]; decide)

/-- Helper: the chunk computation for a text whose stripped form is one
single over-long sentence. -/
theorem oversize_sentence_chunksOf (text s : String)
    (hstrip : pyStrip text = s) (hsplit : splitSentences s = [s])
    (hlen : TRANSLATE_MAX < s.length) :
    chunksOf text = [pySlice s TRANSLATE_MAX] := by
  unfold chunksOf
  rw [hstrip, hsplit]
  unfold buildChunks
  simp only [chunkLoop]
  have hno : ¬ (("" : String).length + s.length + 1 ≤ TRANSLATE_MAX) := by
    have h0 : ("" : String).length = 0 := rfl
    omega
  rw [if_neg hno]
  have hne : pySlice s TRANSLATE_MAX ≠ "" := by
    intro he
    have hts : TRANSLATE_MAX < s.toList.length := hlen
    have hl2 := congrArg String.length he
    rw [pySlice, length_mk, List.length_take,
      Nat.min_eq_left (Nat.le_of_lt hts)] at hl2
    have h0 : ("" : String).length = 0 := rfl
    rw [h0] at hl2
    exact absurd hl2 (by decide)
  simp [hne]

/-- C8 amended: `translate_long_text` breaks the text into chunks only at
sentence boundaries, but a single sentence longer than the 1800-character
limit is truncated to its first 1800 characters — its remainder is dropped
rather than hard-split into further chunks — so the concatenated chunks
need not cover the whole input.  A text whose stripped form is one single
over-long sentence produces exactly one chunk holding the sentence's first
`TRANSLATE_MAX` characters. -/
theorem single_long_sentence_truncated (text s : String)
    (hstrip : pyStrip text = s) (hsplit : splitSentences s = [s])
    (hlen : TRANSLATE_MAX < s.length) :
    chunksOf text = [pySlice s TRANSLATE_MAX] :=
  oversize_sentence_chunksOf text s hstrip hsplit hlen

/-- Witness for the amended C8 at the concrete 1801-character sentence. -/
theorem single_long_sentence_truncated_witness :
    chunksOf s1801 = [pySlice s1801 TRANSLATE_MAX] :=
  single_long_sentence_truncated s1801 s1801 pyStrip_s1801 splitSentences_s1801
    (by rw [s1801_length]; decide)

/-- C8 counterexample: for the 1801-character single-sentence input, the
concatenation of the produced chunks has only 1800 characters — the final
character of the input is absent from the chunk sequence, refuting the
coverage claim. -/
theorem chunks_missing_input_counterexample :
    (String.join (chunksOf s1801)).length = 1800 ∧ s1801.length = 1801 := by
  constructor
  · rw [oversize_sentence_chunksOf s1801 s1801 pyStrip_s1801 splitSentences_s1801
      (by rw [s1801_length]; decide)]
    have hjoin : String.join [pySlice s1801 TRANSLATE_MAX] = "" ++ pySlice s1801 TRANSLATE_MAX := rfl
    have hsl : (pySlice s1801 TRANSLATE_MAX).length = 1800 := by
      unfold pySlice s1801
      rw [length_mk, toList_mk, List.take_replicate, List.length_replicate]
      simp [TRANSLATE_MAX]
    rw [hjoin, String.length_append, hsl]
    rfl
  · exact s1801_length

/-- C1 counterexample: for input `None`, `safe_translate` returns a pair
whose `en` field is the empty string — not a pair of two non-empty strings
as the claim asserts for every input. -/
theorem safe_translate_empty_input_counterexample :
    ¬ ((safe_translate false apiErr none).1 ≠ "" ∧
       (safe_translate false apiErr none).2 ≠ "") := by decide

/-- C1 amended: `safe_translate` is total (never `None`, never raises, by
construction of the model); its `en` field always equals the cleaned input
and its `zh` field is always non-empty.  Hence both fields are non-empty
exactly when the whitespace-cleaned input is non-empty; for empty, `None`
or whitespace-only input the `en` field is empty (and `zh` is the
placeholder `暂无内容`). -/
theorem safe_translate_total (creds : Bool) (api : String → ApiOutcome) (text : Option String) :
    (safe_translate creds api text).1 = safe_translate_en text ∧
      (safe_translate creds api text).2 ≠ "" := by
  unfold safe_translate
  by_cases h1 : safe_translate_en text = "" ∨ (safe_translate_en text).length < 3
  · rw [if_pos h1]
    refine ⟨rfl, ?_⟩
    by_cases h2 : safe_translate_en text = ""
    · rw [if_pos h2]
      show ("暂无内容" : String) ≠ ""
      decide
    · rw [if_neg h2]; exact h2
  · rw [if_neg h1]
    push_neg at h1
    by_cases hc : creds = false
    · rw [if_pos hc]; exact ⟨rfl, h1.1⟩
    · rw [if_neg hc]
      cases htr : translate_long_text api (safe_translate_en text) with
      | ok zh =>
        by_cases hzh : zh ≠ "" ∧ pyStrip zh ≠ ""
        · simp only [if_pos hzh]
          exact ⟨trivial, hzh.1⟩
        · simp only [if_neg hzh]
          exact ⟨trivial, h1.1⟩
      | error e => exact ⟨rfl, h1.1⟩

/-- C6: a title matching a hard-exclusion keyword is rejected by
`is_ai_related` even when it also matches a tracked-company keyword — the
hard exclusion is tested first and short-circuits to `false`. -/
theorem hard_exclusion_overrides_target (title summary : String)
    (hHard : HARD_EXCLUDE.any (fun kw => pyIn kw (pyLower title)) = true)
    (_hTarget : (is_target_company_news title summary).1 = true) :
    is_ai_related title summary = false := by
  unfold is_ai_related
  rw [if_pos hHard]

/-- Witness for C6: a title naming OpenAI and a congressional hearing. -/
theorem hard_exclusion_overrides_target_witness :
    is_ai_related "OpenAI congressional hearing" "" = false :=
  hard_exclusion_overrides_target "OpenAI congressional hearing" ""
    (by decide) (by decide)

/-- C7: the extractor behind the bounded retry wrapper always yields
`some` string — the first attempt never raises because the function body
catches every exception — and when the underlying fetch fails entirely
(an exception) the string is `""`. -/
theorem fetch_retried_total (env : Nat → FetchOutcome) :
    fetch_article_content_retried env = some (fetch_article_content (env 0)) ∧
      (env 0 = FetchOutcome.raise → fetch_article_content_retried env = some "") := by
  constructor
  · rfl
  · intro h
    show retryFrom (fun i => some (fetch_article_content (env i))) 0 MAX_RETRIES = some ""
    rw [show MAX_RETRIES = Nat.succ 2 from rfl]
    simp only [retryFrom, h]
    rfl

/-- Witness for C7: an environment in which every attempt raises. -/
theorem fetch_retried_total_witness :
    fetch_article_content_retried (fun _ => FetchOutcome.raise) = some "" :=
  (fetch_retried_total (fun _ => FetchOutcome.raise)).2 rfl

/-- C4: `main` calls `save_pushed_titles` unconditionally after
`send_to_feishu` — the delivery result is discarded — so the persisted
seen-titles memory is mutated even on a failed delivery.  Here a run whose
delivery fails (`deliverResult = false`) still persists the pushed title
key.  (The 35-entry cap itself holds: the persisted list never exceeds 35
entries.) -/
theorem seen_titles_saved_despite_failed_delivery :
    finishRun false [] [c4art] = ["openai ships a new reasoning model"] ∧
      ∀ (d : Bool) (seen : List String) (valid : List Article),
        (finishRun d seen valid).length ≤ 35 := by
  constructor
  · decide
  · intro d seen valid
    unfold finishRun pyTakeLast
    rw [List.length_drop]
    omega

/-! ## Idempotence of `clean_text` (no length cap)

The normalized form produced by collapsing whitespace runs and stripping the
ends contains only `' '` as whitespace, never two adjacent whitespace
characters, and no whitespace at either end; on such strings both passes
are the identity. -/

def wsOnlySpace (l : List Char) : Bool := l.all (fun c => !c.isWhitespace || c = ' ')

def noAdjWs : List Char → Bool
  | [] => true
  | [_] => true
  | a :: b :: rest => !(a.isWhitespace && b.isWhitespace) && noAdjWs (b :: rest)

def headNotWs : List Char → Bool
  | [] => true
  | c :: _ => !c.isWhitespace

def lastNotWs : List Char → Bool
  | [] => true
  | [c] => !c.isWhitespace
  | _ :: rest => lastNotWs rest

theorem noAdjWs_tail {a : Char} {l : List Char} (h : noAdjWs (a :: l) = true) :
    noAdjWs l = true := by
  cases l with
  | nil => rfl
  | cons b rest => exact (Bool.and_eq_true_iff.mp h).2

theorem noAdjWs_cons {c : Char} {l : List Char}
    (h1 : c.isWhitespace = false ∨ headNotWs l = true) (h2 : noAdjWs l = true) :
    noAdjWs (c :: l) = true := by
  cases l with
  | nil => rfl
  | cons b rest =>
    show (!(c.isWhitespace && b.isWhitespace) && noAdjWs (b :: rest)) = true
    rw [h2, Bool.and_true]
    rcases h1 with h | h
    · simp [h]
    · have hb : b.isWhitespace = false := by
        simpa [headNotWs] using h
      simp [hb]

theorem collapseWsGo_wsOnly : ∀ (l : List Char) (b : Bool),
    wsOnlySpace (collapseWsGo l b) = true := by
  intro l
  induction l with
  | nil => intro b; rfl
  | cons c rest ih =>
    intro b
    simp only [collapseWsGo]
    by_cases hws : c.isWhitespace
    · rw [if_pos hws]
      cases b with
      | true => exact ih true
      | false =>
        simp only [Bool.false_eq_true, if_false]
        have := ih true
        simp only [wsOnlySpace, List.all_cons] at *
        simp [this]
    · rw [if_neg hws]
      have := ih false
      simp only [wsOnlySpace, List.all_cons] at *
      simp [this, hws]

theorem collapseWsGo_head_true : ∀ l : List Char,
    headNotWs (collapseWsGo l true) = true := by
  intro l
  induction l with
  | nil => rfl
  | cons c rest ih =>
    simp only [collapseWsGo]
    by_cases hws : c.isWhitespace
    · rw [if_pos hws]
      simp only [if_true]
      exact ih
    · rw [if_neg hws]
      simp [headNotWs, hws]

theorem collapseWsGo_noAdj : ∀ (l : List Char) (b : Bool),
    noAdjWs (collapseWsGo l b) = true := by
  intro l
  induction l with
  | nil => intro b; rfl
  | cons c rest ih =>
    intro b
    simp only [collapseWsGo]
    by_cases hws : c.isWhitespace
    · rw [if_pos hws]
      cases b with
      | true => exact ih true
      | false =>
        simp only [Bool.false_eq_true, if_false]
        exact noAdjWs_cons (Or.inr (collapseWsGo_head_true rest)) (ih true)
    · rw [if_neg hws]
      exact noAdjWs_cons (Or.inl (Bool.of_not_eq_true hws)) (ih false)

theorem dropWs_headNotWs : ∀ l : List Char, headNotWs (dropWs l) = true := by
  intro l
  induction l with
  | nil => rfl
  | cons c rest ih =>
    simp only [dropWs]
    by_cases hws : c.isWhitespace
    · rw [if_pos hws]; exact ih
    · rw [if_neg hws]; simp [headNotWs, hws]

theorem dropWs_wsOnly {l : List Char} (h : wsOnlySpace l = true) :
    wsOnlySpace (dropWs l) = true := by
  induction l with
  | nil => rfl
  | cons c rest ih =>
    simp only [dropWs]
    simp only [wsOnlySpace, List.all_cons, Bool.and_eq_true_iff] at h
    by_cases hws : c.isWhitespace
    · rw [if_pos hws]; exact ih h.2
    · rw [if_neg hws]
      simp only [wsOnlySpace, List.all_cons, Bool.and_eq_true_iff]
      exact ⟨h.1, h.2⟩

theorem dropWs_noAdj {l : List Char} (h : noAdjWs l = true) :
    noAdjWs (dropWs l) = true := by
  induction l with
  | nil => rfl
  | cons c rest ih =>
    simp only [dropWs]
    by_cases hws : c.isWhitespace
    · rw [if_pos hws]; exact ih (noAdjWs_tail h)
    · rw [if_neg hws]; exact h

theorem dropTrailWs_shape (c : Char) (rest : List Char) :
    dropTrailWs (c :: rest) = [] ∨ dropTrailWs (c :: rest) = c :: dropTrailWs rest := by
  simp only [dropTrailWs]
  by_cases he : (dropTrailWs rest).isEmpty
  · rw [if_pos he]
    by_cases hws : c.isWhitespace
    · left; rw [if_pos hws]
    · right
      rw [if_neg hws]
      have : dropTrailWs rest = [] := by
        cases hr : dropTrailWs rest with
        | nil => rfl
        | cons x xs => rw [hr] at he; simp [List.isEmpty] at he
      rw [this]
  · rw [if_neg he]; right; rfl

theorem dropTrailWs_wsOnly {l : List Char} (h : wsOnlySpace l = true) :
    wsOnlySpace (dropTrailWs l) = true := by
  induction l with
  | nil => rfl
  | cons c rest ih =>
    simp only [wsOnlySpace, List.all_cons, Bool.and_eq_true_iff] at h
    rcases dropTrailWs_shape c rest with hs | hs
    · rw [hs]; rfl
    · rw [hs]
      simp only [wsOnlySpace, List.all_cons, Bool.and_eq_true_iff]
      exact ⟨h.1, ih h.2⟩

theorem dropTrailWs_noAdj {l : List Char} (h : noAdjWs l = true) :
    noAdjWs (dropTrailWs l) = true := by
  induction l with
  | nil => rfl
  | cons c rest ih =>
    rcases dropTrailWs_shape c rest with hs | hs
    · rw [hs]; rfl
    · rw [hs]
      apply noAdjWs_cons _ (ih (noAdjWs_tail h))
      cases rest with
      | nil => right; rfl
      | cons b rest2 =>
        rcases dropTrailWs_shape b rest2 with hs2 | hs2
        · right; rw [hs2]; rfl
        · by_cases hcw : c.isWhitespace
          · right
            rw [hs2]
            have hb : b.isWhitespace = false := by
              have hpair := (Bool.and_eq_true_iff.mp h).1
              rw [hcw] at hpair
              simpa using hpair
            simp [headNotWs, hb]
          · left; exact Bool.of_not_eq_true hcw

theorem dropTrailWs_headNotWs {l : List Char} (h : headNotWs l = true) :
    headNotWs (dropTrailWs l) = true := by
  cases l with
  | nil => rfl
  | cons c rest =>
    rcases dropTrailWs_shape c rest with hs | hs
    · rw [hs]; rfl
    · rw [hs]; exact h

theorem lastNotWs_cons {c : Char} {l : List Char} (hl : l ≠ []) :
    lastNotWs (c :: l) = lastNotWs l := by
  cases l with
  | nil => exact absurd rfl hl
  | cons b rest => rfl

theorem dropTrailWs_lastNotWs : ∀ l : List Char, lastNotWs (dropTrailWs l) = true := by
  intro l
  induction l with
  | nil => rfl
  | cons c rest ih =>
    simp only [dropTrailWs]
    by_cases he : (dropTrailWs rest).isEmpty
    · rw [if_pos he]
      by_cases hws : c.isWhitespace
      · rw [if_pos hws]; rfl
      · rw [if_neg hws]
        simp [lastNotWs, hws]
    · rw [if_neg he]
      have hne : dropTrailWs rest ≠ [] := by
        intro h0; rw [h0] at he; simp [List.isEmpty] at he
      rw [lastNotWs_cons hne]
      exact ih

theorem dropWs_id {l : List Char} (h : headNotWs l = true) : dropWs l = l := by
  cases l with
  | nil => rfl
  | cons c rest =>
    simp only [headNotWs, Bool.not_eq_true'] at h
    simp [dropWs, h]

theorem dropTrailWs_cons_eq (c : Char) (rest : List Char) :
    dropTrailWs (c :: rest) =
      if (dropTrailWs rest).isEmpty then (if c.isWhitespace then [] else [c])
      else c :: dropTrailWs rest := rfl

theorem dropTrailWs_id : ∀ l : List Char, lastNotWs l = true → dropTrailWs l = l := by
  intro l
  induction l with
  | nil => intro _; rfl
  | cons c rest ih =>
    intro h
    cases rest with
    | nil =>
      simp only [lastNotWs, Bool.not_eq_true'] at h
      simp [dropTrailWs, List.isEmpty, h]
    | cons b rest2 =>
      have hr : dropTrailWs (b :: rest2) = b :: rest2 := by
        apply ih
        rw [← lastNotWs_cons (l := b :: rest2) (c := c) (by simp)]
        exact h
      rw [dropTrailWs_cons_eq, hr]
      simp [List.isEmpty]

theorem collapseWsGo_id : ∀ l : List Char,
    wsOnlySpace l = true → noAdjWs l = true →
    collapseWsGo l false = l ∧ (headNotWs l = true → collapseWsGo l true = l) := by
  intro l
  induction l with
  | nil => intro _ _; exact ⟨rfl, fun _ => rfl⟩
  | cons c rest ih =>
    intro hws hadj
    have hwsr : wsOnlySpace rest = true := by
      simp only [wsOnlySpace, List.all_cons, Bool.and_eq_true_iff] at hws
      exact hws.2
    have hadjr : noAdjWs rest = true := noAdjWs_tail hadj
    constructor
    · simp only [collapseWsGo]
      by_cases hc : c.isWhitespace
      · rw [if_pos hc]
        simp only [Bool.false_eq_true, if_false]
        have hcsp : c = ' ' := by
          simp only [wsOnlySpace, List.all_cons, Bool.and_eq_true_iff] at hws
          have := hws.1
          rw [hc] at this
          simpa using this
        have hrh : headNotWs rest = true := by
          cases rest with
          | nil => rfl
          | cons b rest2 =>
            have hpair := (Bool.and_eq_true_iff.mp hadj).1
            rw [hc] at hpair
            simp only [headNotWs, Bool.not_eq_true']
            simpa using hpair
        rw [(ih hwsr hadjr).2 hrh, hcsp]
      · rw [if_neg hc]
        rw [(ih hwsr hadjr).1]
    · intro hhead
      simp only [collapseWsGo]
      have hc : c.isWhitespace = false := by
        simpa [headNotWs, Bool.not_eq_true'] using hhead
      rw [if_neg (by simp [hc])]
      rw [(ih hwsr hadjr).1]

theorem clean_text_none_eq (x : String) (hx : x ≠ "") :
    clean_text x none = String.mk (dropTrailWs (dropWs (collapseWsGo x.toList false))) := by
  rw [clean_text, if_neg hx]

/-- C9: `clean_text` with no length cap is idempotent:
`clean_text (clean_text x) = clean_text x` for every string `x`. -/
theorem clean_text_idempotent (x : String) :
    clean_text (clean_text x none) none = clean_text x none := by
  by_cases hx : x = ""
  · rw [hx]
    rfl
  · rw [clean_text_none_eq x hx]
    set L := dropTrailWs (dropWs (collapseWsGo x.toList false)) with hL
    by_cases hy : String.mk L = ""
    · rw [hy]
      rfl
    · rw [clean_text_none_eq _ hy]
      have hws : wsOnlySpace L = true := by
        rw [hL]
        exact dropTrailWs_wsOnly (dropWs_wsOnly (collapseWsGo_wsOnly x.toList false))
      have hadj : noAdjWs L = true := by
        rw [hL]
        exact dropTrailWs_noAdj (dropWs_noAdj (collapseWsGo_noAdj x.toList false))
      have hhead : headNotWs L = true := by
        rw [hL]
        exact dropTrailWs_headNotWs (dropWs_headNotWs (collapseWsGo x.toList false))
      have hlast : lastNotWs L = true := by
        rw [hL]
        exact dropTrailWs_lastNotWs _
      rw [toList_mk, (collapseWsGo_id L hws hadj).1, dropWs_id hhead, dropTrailWs_id L hlast]

/-! ## The strict pass records every candidate's dedup key -/

theorem strictRest_seen (st : List String × List Article) (a : Article) :
    (strictRest st a).1 = st.1 ++ [titleKey a] := by
  unfold strictRest
  repeat' split
  all_goals rfl

theorem strictStep_seen_cases (st : List String × List Article) (a : Article) :
    (strictStep st a).1 = st.1 ∨ (strictStep st a).1 = st.1 ++ [titleKey a] := by
  unfold strictStep
  split
  · left; rfl
  split
  · left; rfl
  split
  · left; rfl
  right
  exact strictRest_seen st a

theorem foldl_seen_mono (pool : List Article) :
    ∀ (st : List String × List Article) (k : String),
      k ∈ st.1 → k ∈ (List.foldl strictStep st pool).1 := by
  induction pool with
  | nil => intro st k h; simpa using h
  | cons a rest ih =>
    intro st k h
    rw [List.foldl_cons]
    apply ih
    rcases strictStep_seen_cases st a with hc | hc
    · rw [hc]; exact h
    · rw [hc]; exact List.mem_append_left _ h

theorem strictStep_key_mem (st : List String × List Article) (a : Article)
    (ht : ¬ a.titleEn = "") (hc : is_chinese_url a.link = false) :
    titleKey a ∈ (strictStep st a).1 := by
  unfold strictStep
  rw [if_neg ht, if_neg (by simp [hc])]
  by_cases hm : st.1.contains (titleKey a) = true
  · rw [if_pos hm]
    simpa using hm
  · rw [if_neg hm, strictRest_seen]
    exact List.mem_append_right _ (List.mem_singleton_self _)

theorem strict_key_mem (pool : List Article) :
    ∀ (st : List String × List Article) (a : Article),
      a ∈ pool → ¬ a.titleEn = "" → is_chinese_url a.link = false →
      titleKey a ∈ (List.foldl strictStep st pool).1 := by
  induction pool with
  | nil => intro st a h; simp at h
  | cons b rest ih =>
    intro st a hmem ht hc
    rw [List.foldl_cons]
    rcases List.mem_cons.mp hmem with rfl | hmem2
    · exact foldl_seen_mono rest _ _ (strictStep_key_mem st a ht hc)
    · exact ih _ a hmem2 ht hc

/-! ## The backfill pass never adds an article -/

theorem backfillStep_noop (seen : List String) (st : List String × List Article) (a : Article)
    (h : ¬ a.titleEn = "" → is_chinese_url a.link = false → titleKey a ∈ seen) :
    backfillStep seen st a = st := by
  unfold backfillStep
  by_cases h5 : 5 ≤ st.2.length
  · rw [if_pos h5]
  rw [if_neg h5]
  by_cases ht : a.titleEn = ""
  · rw [if_pos ht]
  rw [if_neg ht]
  by_cases hch : is_chinese_url a.link = true
  · by_cases hm : (st.1.contains (titleKey a) || seen.contains (titleKey a)) = true
    · rw [if_pos hm]
    · rw [if_neg hm, if_pos hch]
  · have hkey : titleKey a ∈ seen := h ht (Bool.of_not_eq_true hch)
    have hcont : seen.contains (titleKey a) = true := by simpa using hkey
    have hb : (st.1.contains (titleKey a) || seen.contains (titleKey a)) = true := by
      rw [hcont, Bool.or_true]
    rw [if_pos hb]

theorem backfill_fold_noop (seen : List String) :
    ∀ (pool : List Article) (st : List String × List Article),
      (∀ a ∈ pool, ¬ a.titleEn = "" → is_chinese_url a.link = false → titleKey a ∈ seen) →
      List.foldl (backfillStep seen) st pool = st := by
  intro pool
  induction pool with
  | nil => intro st _; rfl
  | cons a rest ih =>
    intro st h
    rw [List.foldl_cons, backfillStep_noop seen st a (h a (by simp))]
    exact ih st (fun b hb => h b (by simp [hb]))

theorem sortDesc_idem (l : List Article) : sortDesc (sortDesc l) = sortDesc l :=
  List.Sorted.insertionSort_eq (List.sorted_insertionSort hotGe l)

/-- The whole selection collapses to the strict pass: the backfill loop is a
no-op because the strict pass has already recorded the dedup key of every
non-Chinese-link candidate in the seen set that the backfill consults. -/
theorem select_eq (pool : List Article) (seen0 : List String) :
    selectArticles pool seen0 = (sortDesc (strictPass pool seen0).2).take 5 := by
  unfold selectArticles
  by_cases h5 : (sortDesc (strictPass pool seen0).2).length < 5
  · rw [if_pos h5]
    rw [backfill_fold_noop (strictPass pool seen0).1 pool _
      (fun a ha ht hc => strict_key_mem pool (seen0, []) a ha ht hc)]
    rw [sortDesc_idem]
  · rw [if_neg h5]

/-! ## No Chinese-language link survives selection -/

theorem boostArticle_link (a : Article) : (boostArticle a).link = a.link := by
  unfold boostArticle
  split <;> rfl

theorem strictRest_valid_cases (st : List String × List Article) (a : Article) :
    (strictRest st a).2 = st.2 ∨ (strictRest st a).2 = st.2 ++ [boostArticle a] := by
  unfold strictRest
  repeat' split
  all_goals first | (left; rfl) | (right; rfl)

theorem strictStep_no_chinese (st : List String × List Article) (a : Article)
    (hinv : ∀ b ∈ st.2, is_chinese_url b.link = false) :
    ∀ b ∈ (strictStep st a).2, is_chinese_url b.link = false := by
  intro b hb
  unfold strictStep at hb
  by_cases h1 : a.titleEn = ""
  · rw [if_pos h1] at hb; exact hinv b hb
  rw [if_neg h1] at hb
  by_cases h2 : is_chinese_url a.link = true
  · rw [if_pos h2] at hb; exact hinv b hb
  rw [if_neg h2] at hb
  by_cases h3 : st.1.contains (titleKey a) = true
  · rw [if_pos h3] at hb; exact hinv b hb
  rw [if_neg h3] at hb
  rcases strictRest_valid_cases st a with hc | hc
  · rw [hc] at hb; exact hinv b hb
  · rw [hc] at hb
    rcases List.mem_append.mp hb with h | h
    · exact hinv b h
    · rcases List.mem_singleton.mp h with rfl
      rw [boostArticle_link]
      exact Bool.of_not_eq_true h2

theorem strictPass_no_chinese (pool : List Article) (seen0 : List String) :
    ∀ b ∈ (strictPass pool seen0).2, is_chinese_url b.link = false := by
  suffices h : ∀ (st : List String × List Article),
      (∀ b ∈ st.2, is_chinese_url b.link = false) →
      ∀ b ∈ (List.foldl strictStep st pool).2, is_chinese_url b.link = false by
    exact h (seen0, []) (by simp)
  induction pool with
  | nil => intro st h; simpa using h
  | cons a rest ih =>
    intro st h
    rw [List.foldl_cons]
    exact ih _ (strictStep_no_chinese st a h)

/-- C10: every article in the final delivered list has a link matching none
of the `CHINESE_DOMAINS` substrings — both the strict pass and the backfill
pass drop Chinese-language links, an exclusion the spec's selection policy
does not state. -/
theorem final_articles_not_chinese (pool : List Article) (seen0 : List String)
    (a : Article) (ha : a ∈ selectArticles pool seen0) :
    is_chinese_url a.link = false := by
  rw [select_eq] at ha
  have h1 : a ∈ sortDesc (strictPass pool seen0).2 := List.take_subset 5 _ ha
  have h2 : a ∈ (strictPass pool seen0).2 :=
    (List.perm_insertionSort hotGe _).mem_iff.mp h1
  exact strictPass_no_chinese pool seen0 a h2

/-- Witness for C10 at a concrete single-article pool. -/
theorem final_articles_not_chinese_witness : is_chinese_url c10art.link = false :=
  final_articles_not_chinese [c10art] [] c10art (by decide)

/-- C2 amended: the final list never holds more than `top_n = 5` articles,
and it is exactly the top 5 (by score) of the strict-pass survivors: the
backfill pass adds nothing — the strict pass records every non-Chinese-link
candidate's dedup key in the seen set before its relaxed checks run, so its
dedup test rejects every candidate — and therefore fewer than 5 articles
are delivered exactly when fewer than 5 survive the strict pass, even when
the pool holds 5 deduplicated, non-hard-excluded items with non-empty
content. -/
theorem select_at_most_five_eq_strict (pool : List Article) (seen0 : List String) :
    (selectArticles pool seen0).length ≤ 5 ∧
      selectArticles pool seen0 = (sortDesc (strictPass pool seen0).2).take 5 := by
  refine ⟨?_, select_eq pool seen0⟩
  rw [select_eq]
  exact List.length_take_le 5 _

/-- C2 counterexample: a pool of five distinct, non-hard-excluded,
non-Chinese articles with non-empty content (all merely off-topic) is
delivered as zero articles — the backfill does not fill the list to 5 as
the claim asserts. -/
theorem select_underfill_counterexample :
    (selectArticles c2pool []).length = 0 ∧
      c2pool.length = 5 ∧
      (c2pool.map titleKey).Nodup ∧
      c2pool.all (fun a =>
        !(HARD_EXCLUDE.any (fun kw => pyIn kw (pyLower (pyStrip a.titleEn)))) &&
        !(a.contentEn == "") && !(is_chinese_url a.link)) = true := by
  refine ⟨by decide, by decide, by decide, by decide⟩

/-- C5 amended: whenever fewer than 5 articles survive strict filtering,
the backfill pass adds no article at all — every candidate it examines is
rejected by its dedup check against the seen set that the strict pass
populated with every non-Chinese-link candidate's key (or by its own
title/Chinese-link checks) — so it never re-applies the hard-exclusion
denylist and never actually relaxes the topicality or quality thresholds. -/
theorem backfill_adds_nothing (pool : List Article) (seen0 : List String) :
    (List.foldl (backfillStep (strictPass pool seen0).1)
        ((sortDesc (strictPass pool seen0).2).map usedKey, sortDesc (strictPass pool seen0).2)
        pool).2 = sortDesc (strictPass pool seen0).2 := by
  rw [backfill_fold_noop (strictPass pool seen0).1 pool _
    (fun a ha ht hc => strict_key_mem pool (seen0, []) a ha ht hc)]

/-- C5 counterexample: an on-topic tracked-company article whose body is
shorter than the quality floor (and which passes hard exclusion, dedup and
the non-empty-content test) is dropped by the strict pass and NOT brought
back by the relaxed backfill pass — the final list is empty, refuting the
claim that backfill refills the slots while relaxing only quality and
topicality. -/
theorem backfill_refills_nothing_counterexample :
    (selectArticles [c5art] []).length = 0 ∧
      is_ai_related (pyStrip c5art.titleEn) (pySlice c5art.contentEn 500) = true ∧
      (HARD_EXCLUDE.any (fun kw => pyIn kw (pyLower (pyStrip c5art.titleEn)))) = false ∧
      pyStrip (if c5art.contentEn = "" then c5art.contentZh else c5art.contentEn) ≠ "" := by
  refine ⟨by decide, by decide, by decide, by decide⟩
